import Mathlib

/-!
Shallow embedding of `split_bills.py` (repository davidselassie/ledger).

Modelling conventions:
* Python `datetime.date` values are encoded by their proleptic Gregorian
  ordinal (`date.toordinal()`), an `Int`; ordering and `date - date`
  (in days, a `timedelta`) agree with Python.
* Python `float` dollar amounts and fractions are modelled as exact
  rationals `ℚ`; `round(x, 2)` is modelled as exact round-half-to-even at
  two decimals, which is Python's rounding mode.
* Python exceptions are modelled with `Except PyError`; the interpolated
  data in exception messages is dropped, keeping a fixed message per
  raise site so that distinct error conditions stay distinguishable.
* Python `frozenset`s are modelled as lists in construction order;
  set-iteration order only influences dictionary insertion order in the
  source, never the key-to-value content, and duplicate split dates are
  no-ops for slicing.
* Python dicts are modelled as association lists in insertion order with
  unique keys, with faithful overwrite (`dictSet`) and
  add-or-insert (`dictAdd`) operations.
-/

namespace SplitBills

/-- `FUTURE = date(9999, 1, 1)`: dates are their proleptic Gregorian
ordinals (`date.toordinal()`), and `date(9999, 1, 1).toordinal() = 3651695`. -/
def FUTURE : Int := 3651695

/-- Ordinal of 2014-01-d: `date(2014, 1, 1).toordinal() = 735234`. -/
def jan2014 (d : Nat) : Int := 735233 + d

/-- `DateRange = namedtuple('DateRange', ('start', 'end_exclusive'))`. -/
structure DateRange where
  start : Int
  end_exclusive : Int
deriving DecidableEq, Repr

/-- `EMPTY_INTERSECTION = DateRange(start=FUTURE, end_exclusive=FUTURE)`. -/
def EMPTY_INTERSECTION : DateRange := ⟨FUTURE, FUTURE⟩

/-- `Bill = namedtuple('Bill', ('description', 'paid_by', 'for_dates', 'paid_on_date', 'amount'))`. -/
structure Bill where
  description : String
  paid_by : String
  for_dates : DateRange
  paid_on_date : Int
  amount : ℚ
deriving DecidableEq, Repr

/-- `SharedCost = namedtuple('SharedCost', (...))`; `shared_amongst` is
`None` or a frozenset of names (modelled as an optional list). -/
structure SharedCost where
  description : String
  paid_by : String
  on_date : Int
  shared_amongst : Option (List String)
  amount : ℚ
deriving DecidableEq, Repr

/-- `Payment = namedtuple('Payment', ('payer', 'to', 'on_date', 'amount'))`;
the source field `to` is a reserved word in Lean and is called `payee` here. -/
structure Payment where
  payer : String
  payee : String
  on_date : Int
  amount : ℚ
deriving DecidableEq, Repr

/-- `Person = namedtuple('Person', ('name', 'residencies'))`. -/
structure Person where
  name : String
  residencies : List DateRange
deriving DecidableEq, Repr

/-- `House = namedtuple('House', ('name', 'min_people', 'people'))`. -/
structure House where
  name : String
  min_people : Nat
  people : List Person
deriving DecidableEq, Repr

/-- The Python exceptions raised by the program. -/
inductive PyError where
  | valueError (msg : String)
  | runtimeError (msg : String)
  | zeroDivisionError
deriving DecidableEq, Repr

instance {ε α : Type} [DecidableEq ε] [DecidableEq α] : DecidableEq (Except ε α) := fun x y =>
  match x, y with
  | .error a, .error b =>
    if h : a = b then .isTrue (by rw [h]) else .isFalse (fun hc => h (Except.error.inj hc))
  | .error _, .ok _ => .isFalse (fun hc => Except.noConfusion hc)
  | .ok _, .error _ => .isFalse (fun hc => Except.noConfusion hc)
  | .ok a, .ok b =>
    if h : a = b then .isTrue (by rw [h]) else .isFalse (fun hc => h (Except.ok.inj hc))

/-- `ValueError('no length of an unbounded date range')`. -/
def noLengthMsg : String := "no length of an unbounded date range"

/-- `RuntimeError('... is only in residence for part of ...')`. -/
def partResidencyMsg : String := "is only in residence for part of the range"

/-- `ValueError('house is under-rented during ...')`. -/
def underRentedMsg : String := "house is under-rented"

/-- `RuntimeError('splitting amount failed: ...')`. -/
def splitAmountFailedMsg : String := "splitting amount failed"

/-- `RuntimeError('slicing bill failed: ...')`. -/
def sliceBillFailedMsg : String := "slicing bill failed"

/-- `RuntimeError('splitting bill slice failed: ...')`. -/
def splitSliceFailedMsg : String := "splitting bill slice failed"

/-- `RuntimeError('splitting bill failed: ...')`. -/
def splitBillFailedMsg : String := "splitting bill failed"

/-- `RuntimeError('splitting shared cost failed: ...')`. -/
def sharedCostFailedMsg : String := "splitting shared cost failed"

/-- `RuntimeError('splitting payment failed: ...')`. -/
def paymentFailedMsg : String := "splitting payment failed"

/-- `RuntimeError('grand total does not check out')`. -/
def grandTotalMsg : String := "grand total does not check out"

/-- A Python dict from names to dollar amounts, in insertion order. -/
abbrev Dues := List (String × ℚ)

/-- `d[k] = v`: overwrite the value when the key is present, else append. -/
def dictSet (d : Dues) (k : String) (v : ℚ) : Dues :=
  if d.any (fun kv => kv.1 == k) then
    d.map (fun kv => if kv.1 == k then (kv.1, v) else kv)
  else d ++ [(k, v)]

/-- `d[k] += v` with a `KeyError` fallback to `d[k] = v`. -/
def dictAdd (d : Dues) (k : String) (v : ℚ) : Dues :=
  if d.any (fun kv => kv.1 == k) then
    d.map (fun kv => if kv.1 == k then (kv.1, kv.2 + v) else kv)
  else d ++ [(k, v)]

/-- `sum_dicts(a, b)`: copy `a`, then add each of `b`'s entries. -/
def sum_dicts (a b : Dues) : Dues :=
  b.foldl (fun o kv => dictAdd o kv.1 kv.2) a

/-- `sum(d.values())`. -/
def sumValues (d : Dues) : ℚ :=
  (d.map Prod.snd).sum

/-- Round to the nearest integer, ties to even (Python's rounding mode). -/
def round_half_even (q : ℚ) : ℤ :=
  let n := ⌊q⌋
  let r := q - n
  if r < 1/2 then n
  else if 1/2 < r then n + 1
  else if n % 2 = 0 then n else n + 1

/-- Python `round(q, 2)`: round to the nearest cent, ties to even. -/
def round2 (q : ℚ) : ℚ :=
  (round_half_even (q * 100) : ℚ) / 100

/-- `split_date_range(dr, d)`: split at `d` when it falls strictly inside. -/
def split_date_range (dr : DateRange) (d : Int) : List DateRange :=
  if dr.start < d ∧ d < dr.end_exclusive then
    [⟨dr.start, d⟩, ⟨d, dr.end_exclusive⟩]
  else [dr]

/-- `slice_date_range(dr, ds)`: repeatedly split the fragments by each date. -/
def slice_date_range (dr : DateRange) (ds : List Int) : List DateRange :=
  ds.foldl (fun drs d => drs.flatMap (fun r => split_date_range r d)) [dr]

/-- `date_range_length(dr)`: the `timedelta` of a range; raises
`ValueError` when the end is `FUTURE` but the start is not. -/
def date_range_length (dr : DateRange) : Except PyError Int :=
  if dr.end_exclusive = FUTURE ∧ dr.start ≠ FUTURE then
    .error (.valueError noLengthMsg)
  else .ok (dr.end_exclusive - dr.start)

/-- `date_range_of_day(d)`: the zero-length range at `d`. -/
def date_range_of_day (d : Int) : DateRange :=
  ⟨d, d⟩

/-- Python tuple comparison `DateRange < DateRange` (lexicographic). -/
def dr_lt (x y : DateRange) : Prop :=
  x.start < y.start ∨ (x.start = y.start ∧ x.end_exclusive < y.end_exclusive)

instance (x y : DateRange) : Decidable (dr_lt x y) :=
  inferInstanceAs (Decidable (_ ∨ _))

/-- `date_range_intersection(a, b)`: `a, b = sorted((a, b))`, then either
the `EMPTY_INTERSECTION` sentinel or the overlapping sub-range. -/
def date_range_intersection (x y : DateRange) : DateRange :=
  let a := if dr_lt y x then y else x
  let b := if dr_lt y x then x else y
  if b.start ≠ a.start ∧ b.start ≥ a.end_exclusive then EMPTY_INTERSECTION
  else ⟨b.start, min a.end_exclusive b.end_exclusive⟩

/-- `date_range_overlap_fraction(a, b)`: fraction of `a` inside `b`.
The `timedelta / timedelta` at the end can raise (unbounded length, or a
zero-length divisor, Python's `ZeroDivisionError`). -/
def date_range_overlap_fraction (a b : DateRange) : Except PyError ℚ :=
  let i := date_range_intersection a b
  if i = a then .ok 1
  else if i = EMPTY_INTERSECTION then .ok 0
  else
    match date_range_length i with
    | .error e => .error e
    | .ok li =>
      match date_range_length a with
      | .error e => .error e
      | .ok la =>
        if la = 0 then .error .zeroDivisionError
        else .ok ((li : ℚ) / (la : ℚ))

/-- `slice_bill`, inner tuple comprehension: one sub-bill per fragment,
with `amount = bill.amount * date_range_overlap_fraction(bill.for_dates, dr)`. -/
def slice_bill_map (bill : Bill) : List DateRange → Except PyError (List Bill)
  | [] => .ok []
  | dr :: drs =>
    match date_range_overlap_fraction bill.for_dates dr with
    | .error e => .error e
    | .ok frac =>
      match slice_bill_map bill drs with
      | .error e => .error e
      | .ok rest => .ok ({ bill with for_dates := dr, amount := bill.amount * frac } :: rest)

/-- `slice_bill(bill, ds)`: slice the date range, apportion the amount
proportionally, and check the slice amounts still sum to the bill amount
to the cent. -/
def slice_bill (bill : Bill) (ds : List Int) : Except PyError (List Bill) :=
  match slice_bill_map bill (slice_date_range bill.for_dates ds) with
  | .error e => .error e
  | .ok split_bills =>
    if round2 bill.amount ≠ round2 ((split_bills.map Bill.amount).sum) then
      .error (.runtimeError sliceBillFailedMsg)
    else .ok split_bills

/-- `sum(date_range_overlap_fraction(dr, r) for r in residencies)`,
with exceptions propagating out of the generator left to right. -/
def residency_fraction_sum (dr : DateRange) : List DateRange → ℚ → Except PyError ℚ
  | [], acc => .ok acc
  | r :: rs, acc =>
    match date_range_overlap_fraction dr r with
    | .error e => .error e
    | .ok f => residency_fraction_sum dr rs (acc + f)

/-- The `fraction_of_dr_in_residency` computed for one person inside
`resident_names_during_date_range`. -/
def person_residency_fraction (dr : DateRange) (p : Person) : Except PyError ℚ :=
  residency_fraction_sum dr p.residencies 0

/-- `set.add` on the resident-name set, modelled as append-if-new. -/
def addName (names : List String) (n : String) : List String :=
  if n ∈ names then names else names ++ [n]

/-- The person-by-person loop of `resident_names_during_date_range`:
fraction exactly 1 adds the name, exactly 0 skips, anything else raises
`RuntimeError('... is only in residence for part of ...')`. -/
def resident_names_go (dr : DateRange) (acc : List String) :
    List Person → Except PyError (List String)
  | [] => .ok acc
  | p :: ps =>
    match person_residency_fraction dr p with
    | .error e => .error e
    | .ok frac =>
      if frac = 1 then resident_names_go dr (addName acc p.name) ps
      else if frac ≠ 0 then .error (.runtimeError partResidencyMsg)
      else resident_names_go dr acc ps

/-- `resident_names_during_date_range(dr, people)`. -/
def resident_names_during_date_range (dr : DateRange) (people : List Person) :
    Except PyError (List String) :=
  resident_names_go dr [] people

/-- `split_evenly(amount, among_names)`: a dict comprehension assigning
`amount / len(among_names)` to each name (the division is evaluated once
per element, so an empty iterable performs no division), then a
reconciliation check of the dues total against the amount. -/
def split_evenly (amount : ℚ) (among_names : List String) : Except PyError Dues :=
  let num_people : ℚ := among_names.length
  let name_to_dues := among_names.foldl (fun d person => dictSet d person (amount / num_people)) []
  let total_dues := sumValues name_to_dues
  if round2 total_dues ≠ round2 amount then .error (.runtimeError splitAmountFailedMsg)
  else .ok name_to_dues

/-- `bill_slice_personal_costs(bill_slice, house)`: resolve residents,
enforce `min_people`, split evenly, re-check the split total. -/
def bill_slice_personal_costs (bill_slice : Bill) (house : House) : Except PyError Dues :=
  match resident_names_during_date_range bill_slice.for_dates house.people with
  | .error e => .error e
  | .ok names =>
    if names.length < house.min_people then .error (.valueError underRentedMsg)
    else
      match split_evenly bill_slice.amount names with
      | .error e => .error e
      | .ok name_to_dues =>
        if round2 bill_slice.amount ≠ round2 (sumValues name_to_dues) then
          .error (.runtimeError splitSliceFailedMsg)
        else .ok name_to_dues

/-- `house_move_dates(house)`: every residency boundary of every person
(the source builds a `frozenset`; duplicates are harmless split no-ops). -/
def house_move_dates (house : House) : List Int :=
  house.people.flatMap (fun p => p.residencies.flatMap (fun r => [r.start, r.end_exclusive]))

/-- The per-slice loop of `dues_for_bill`, merging each slice's dues into
the accumulating dict. -/
def dues_slices_fold (house : House) : List Bill → Dues → Except PyError Dues
  | [], acc => .ok acc
  | s :: rest, acc =>
    match bill_slice_personal_costs s house with
    | .error e => .error e
    | .ok d => dues_slices_fold house rest (sum_dicts acc d)

/-- `dues_for_bill(bill, house)`: start from `{paid_by: -amount}`, add the
dues of every slice, and check the result sums to zero to the cent. -/
def dues_for_bill (bill : Bill) (house : House) : Except PyError Dues :=
  match slice_bill bill (house_move_dates house) with
  | .error e => .error e
  | .ok slices =>
    match dues_slices_fold house slices [(bill.paid_by, -bill.amount)] with
    | .error e => .error e
    | .ok name_to_dues =>
      if round2 (sumValues name_to_dues) ≠ 0 then .error (.runtimeError splitBillFailedMsg)
      else .ok name_to_dues

/-- `dues_for_shared_cost(shared_cost, house)`: Python truthiness makes
both `None` and an empty `shared_amongst` fall back to the residents of
the zero-length range at `on_date`. -/
def dues_for_shared_cost (sc : SharedCost) (house : House) : Except PyError Dues :=
  let init : Dues := [(sc.paid_by, -sc.amount)]
  let namesE : Except PyError (List String) :=
    match sc.shared_amongst with
    | some l =>
      if l ≠ [] then .ok l
      else resident_names_during_date_range (date_range_of_day sc.on_date) house.people
    | none => resident_names_during_date_range (date_range_of_day sc.on_date) house.people
  match namesE with
  | .error e => .error e
  | .ok names =>
    match split_evenly sc.amount names with
    | .error e => .error e
    | .ok d =>
      let name_to_dues := sum_dicts init d
      if round2 (sumValues name_to_dues) ≠ 0 then .error (.runtimeError sharedCostFailedMsg)
      else .ok name_to_dues

/-- `dues_for_payment(payment)`: the dict literal
`{payer: -amount, to: amount}` (the second key overwrites the first when
they coincide), then the zero-sum check. -/
def dues_for_payment (p : Payment) : Except PyError Dues :=
  let name_to_dues := dictSet (dictSet [] p.payer (-p.amount)) p.payee p.amount
  if round2 (sumValues name_to_dues) ≠ 0 then .error (.runtimeError paymentFailedMsg)
  else .ok name_to_dues

/-- The tagged union of ledger items dispatched on in `main`. -/
inductive LedgerEntry where
  | bill (b : Bill)
  | sharedCost (sc : SharedCost)
  | payment (p : Payment)
deriving DecidableEq, Repr

/-- The per-entry dispatch in `main`'s loop. -/
def compute_dues (house : House) : LedgerEntry → Except PyError Dues
  | .bill b => dues_for_bill b house
  | .sharedCost sc => dues_for_shared_cost sc house
  | .payment p => dues_for_payment p

/-- `main`'s entry loop, from a given running total: allocate the entry,
merge into the running total, check the running total still rounds to
zero, then continue; the running totals after each entry are returned. -/
def run_ledger_from (house : House) (total : Dues) :
    List LedgerEntry → Except PyError (List Dues)
  | [] => .ok []
  | i :: rest =>
    match compute_dues house i with
    | .error e => .error e
    | .ok d =>
      let new_total := sum_dicts total d
      if round2 (sumValues new_total) ≠ 0 then .error (.runtimeError grandTotalMsg)
      else
        match run_ledger_from house new_total rest with
        | .error e => .error e
        | .ok ts => .ok (new_total :: ts)

/-- `main`'s processing of a chronologically ordered ledger, starting from
the empty running total. -/
def run_ledger (house : House) (entries : List LedgerEntry) : Except PyError (List Dues) :=
  run_ledger_from house [] entries

/-- `date_range_length` as written in the sibling module `ledger.py`: due
to Python operator precedence the condition is
`start == FUTURE or (end_exclusive == FUTURE and not (both FUTURE))`,
so a `FUTURE`-to-`FUTURE` range raises as well. -/
def ledger_module_date_range_length (dr : DateRange) : Except PyError Int :=
  if dr.start = FUTURE ∨
      (dr.end_exclusive = FUTURE ∧ ¬(dr.start = FUTURE ∧ dr.end_exclusive = FUTURE)) then
    .error (.valueError noLengthMsg)
  else .ok (dr.end_exclusive - dr.start)

/-- Rounding an integer-valued rational is the identity. -/
theorem round_half_even_intCast (n : ℤ) : round_half_even (n : ℚ) = n := by
  unfold round_half_even
  simp

/-- `round(0, 2) = 0`. -/
theorem round2_zero : round2 0 = 0 := by
  have h : ((0 : ℤ) : ℚ) = (0 : ℚ) * 100 := by norm_num
  unfold round2
  rw [← h, round_half_even_intCast]
  norm_num

/-- `round2` of a whole number of cents recovers that number of cents. -/
theorem round2_cents (q : ℚ) (n : ℤ) (h : q * 100 = (n : ℚ)) :
    round2 q = (n : ℚ) / 100 := by
  unfold round2
  rw [h, round_half_even_intCast]

/-- `round(100, 2) = 100`, the reconciliation comparison value for a $100 amount. -/
theorem round2_hundred : round2 (100 : ℚ) = 100 := by
  rw [round2_cents 100 10000 (by norm_num)]
  norm_num

/-- The Python tuple order on `DateRange` is trichotomous. -/
theorem dr_lt_trichotomy (x y : DateRange) : dr_lt x y ∨ dr_lt y x ∨ x = y := by
  obtain ⟨xs, xe⟩ := x
  obtain ⟨ys, ye⟩ := y
  show (xs < ys ∨ (xs = ys ∧ xe < ye)) ∨ (ys < xs ∨ (ys = xs ∧ ye < xe)) ∨ _
  simp only [DateRange.mk.injEq]
  omega

/-- The Python tuple order on `DateRange` is asymmetric. -/
theorem dr_lt_asymm (x y : DateRange) (h : dr_lt x y) : ¬dr_lt y x := by
  obtain ⟨xs, xe⟩ := x
  obtain ⟨ys, ye⟩ := y
  have h' : xs < ys ∨ (xs = ys ∧ xe < ye) := h
  intro hc
  have hc' : ys < xs ∨ (ys = xs ∧ ye < xe) := hc
  omega

/-- `sorted((a, b))` makes `date_range_intersection` symmetric. -/
theorem date_range_intersection_comm (x y : DateRange) :
    date_range_intersection x y = date_range_intersection y x := by
  unfold date_range_intersection
  rcases dr_lt_trichotomy x y with h | h | h
  · rw [if_neg (dr_lt_asymm x y h), if_neg (dr_lt_asymm x y h), if_pos h, if_pos h]
  · rw [if_pos h, if_pos h, if_neg (dr_lt_asymm y x h), if_neg (dr_lt_asymm y x h)]
  · rw [h]

/-- `date_range_intersection` when the second argument sorts strictly first. -/
theorem inter_of_lt (x y : DateRange) (h : dr_lt y x) :
    date_range_intersection x y =
      if x.start ≠ y.start ∧ x.start ≥ y.end_exclusive then EMPTY_INTERSECTION
      else ⟨x.start, min y.end_exclusive x.end_exclusive⟩ := by
  simp only [date_range_intersection, if_pos h]

/-- `date_range_intersection` when the first argument sorts first. -/
theorem inter_of_not_lt (x y : DateRange) (h : ¬dr_lt y x) :
    date_range_intersection x y =
      if y.start ≠ x.start ∧ y.start ≥ x.end_exclusive then EMPTY_INTERSECTION
      else ⟨y.start, min x.end_exclusive y.end_exclusive⟩ := by
  simp only [date_range_intersection, if_neg h]

/-- Inversion for a successful `date_range_length`. -/
theorem date_range_length_eq_ok (dr : DateRange) (l : ℤ) :
    date_range_length dr = .ok l ↔
      ¬(dr.end_exclusive = FUTURE ∧ dr.start ≠ FUTURE) ∧ l = dr.end_exclusive - dr.start := by
  unfold date_range_length
  split_ifs with h
  · constructor
    · intro hc
      simp at hc
    · rintro ⟨hn, -⟩
      exact absurd h hn
  · constructor
    · intro hc
      exact ⟨h, (Except.ok.inj hc).symm⟩
    · rintro ⟨-, hl⟩
      rw [hl]

/-- `date_range_length` succeeds whenever the raise condition fails. -/
theorem date_range_length_ok (dr : DateRange)
    (h : ¬(dr.end_exclusive = FUTURE ∧ dr.start ≠ FUTURE)) :
    date_range_length dr = .ok (dr.end_exclusive - dr.start) := by
  unfold date_range_length
  rw [if_neg h]

/-- A range always has overlap fraction `1.0` with itself (the
`i == a` fast path, valid even for zero-length and sentinel ranges). -/
theorem overlap_self (a : DateRange) : date_range_overlap_fraction a a = .ok 1 := by
  have hlt : ¬dr_lt a a := by
    obtain ⟨s, e⟩ := a
    intro hc
    have hc' : s < s ∨ (s = s ∧ e < e) := hc
    omega
  have hinter : date_range_intersection a a = a := by
    rw [inter_of_not_lt a a hlt]
    simp
  unfold date_range_overlap_fraction
  rw [hinter, if_pos rfl]

/-- The unified value of `date_range_overlap_fraction` on a sub-range of a
bounded, forward range: always `(e - s) / (E - S)`, whichever branch of
the source runs. -/
theorem overlap_fraction_within (S E s e : ℤ) (h1 : S ≤ s) (h2 : s ≤ e) (h3 : e ≤ E)
    (h4 : S < E) (h5 : E < FUTURE) :
    date_range_overlap_fraction ⟨S, E⟩ ⟨s, e⟩ =
      .ok (((e - s : ℤ) : ℚ) / ((E - S : ℤ) : ℚ)) := by
  by_cases hsE : s = E
  · -- the sub-range is the zero-length range at the far end: empty sentinel
    have heE : e = E := by omega
    have hlt : ¬dr_lt ⟨s, e⟩ ⟨S, E⟩ := by
      intro hc
      have hc' : s < S ∨ (s = S ∧ e < E) := hc
      omega
    have hI : date_range_intersection ⟨S, E⟩ ⟨s, e⟩ = EMPTY_INTERSECTION := by
      rw [inter_of_not_lt _ _ hlt]
      dsimp only
      rw [if_pos ⟨by omega, by omega⟩]
    unfold date_range_overlap_fraction
    rw [hI]
    have hne1 : EMPTY_INTERSECTION ≠ (⟨S, E⟩ : DateRange) := by
      unfold EMPTY_INTERSECTION
      simp only [ne_eq, DateRange.mk.injEq, not_and]
      omega
    rw [if_neg hne1, if_pos rfl]
    have : ((e - s : ℤ) : ℚ) = 0 := by
      have h0 : e - s = 0 := by omega
      rw [h0]
      norm_num
    rw [this, zero_div]
  · -- the intersection collapses to the sub-range itself
    have hI : date_range_intersection ⟨S, E⟩ ⟨s, e⟩ = ⟨s, e⟩ := by
      by_cases hlt : dr_lt ⟨s, e⟩ ⟨S, E⟩
      · have hlt' : s < S ∨ (s = S ∧ e < E) := hlt
        rw [inter_of_lt _ _ hlt]
        dsimp only
        rw [if_neg (by push_neg; omega)]
        have hmin : min e E = e := by omega
        rw [hmin]
        have hsS : S = s := by omega
        rw [hsS]
      · have hlt' : ¬(s < S ∨ (s = S ∧ e < E)) := hlt
        rw [inter_of_not_lt _ _ hlt]
        dsimp only
        rw [if_neg (by push_neg; omega)]
        have hmin : min E e = e := by omega
        rw [hmin]
    unfold date_range_overlap_fraction
    rw [hI]
    by_cases hSE : s = S ∧ e = E
    · rw [if_pos (by rw [hSE.1, hSE.2])]
      have hne : ((E - S : ℤ) : ℚ) ≠ 0 := by
        simp only [ne_eq, Int.cast_eq_zero]
        omega
      rw [hSE.1, hSE.2, div_self hne]
    · have hne1 : (⟨s, e⟩ : DateRange) ≠ ⟨S, E⟩ := by
        simp only [ne_eq, DateRange.mk.injEq, not_and]
        intro hs he
        exact hSE ⟨hs, he⟩
      have hne2 : (⟨s, e⟩ : DateRange) ≠ EMPTY_INTERSECTION := by
        unfold EMPTY_INTERSECTION
        simp only [ne_eq, DateRange.mk.injEq, not_and]
        omega
      rw [if_neg hne1, if_neg hne2]
      rw [date_range_length_ok ⟨s, e⟩ (by dsimp only; push_neg; omega),
        date_range_length_ok ⟨S, E⟩ (by dsimp only; push_neg; omega)]
      dsimp only
      rw [if_neg (by omega)]

/-- Claim C7 (amended): in `split_bills.py`, `date_range_length` raises
`ValueError` exactly when the end is the `FUTURE` sentinel and the start
is not; a `FUTURE`-to-`FUTURE` range has length zero; in every non-raising
case (including a sentinel start with a bounded end) the result is
`end_exclusive - start`. -/
theorem c7_date_range_length_amended (r : DateRange) :
    ((r.end_exclusive = FUTURE ∧ r.start ≠ FUTURE) →
      date_range_length r = .error (.valueError noLengthMsg)) ∧
    ((r.start = FUTURE ∧ r.end_exclusive = FUTURE) → date_range_length r = .ok 0) ∧
    (¬(r.end_exclusive = FUTURE ∧ r.start ≠ FUTURE) →
      date_range_length r = .ok (r.end_exclusive - r.start)) := by
  unfold date_range_length
  refine ⟨fun h => by rw [if_pos h], fun h => ?_, fun h => by rw [if_neg h]⟩
  rw [if_neg (by simp [h.1, h.2])]
  rw [h.1, h.2]
  simp

/-- Witness for C7's amended claim at the range `[2014-01-01, FUTURE)`. -/
theorem c7_witness :
    date_range_length ⟨jan2014 1, FUTURE⟩ = .error (.valueError noLengthMsg) :=
  (c7_date_range_length_amended ⟨jan2014 1, FUTURE⟩).1 ⟨rfl, by decide⟩

/-- Counterexample to C7 as stated: `DateRange(FUTURE, 2014-01-01)` has
exactly one sentinel endpoint (the start), yet `date_range_length`
returns a (negative) length instead of raising. -/
theorem c7_counterexample :
    date_range_length ⟨FUTURE, jan2014 1⟩ = .ok (jan2014 1 - FUTURE) ∧
    (FUTURE = FUTURE ∧ jan2014 1 ≠ FUTURE) := by
  refine ⟨?_, rfl, by decide⟩
  unfold date_range_length
  rw [if_neg (by decide)]

/-- Claim C8 (amended): `intersect` is symmetric, and for ranges whose
lengths are defined, the result is the empty sentinel or (inclusively) a
range whose length is defined and at most `min(length(a), length(b))`;
the two cases are not mutually exclusive, since the sentinel itself has
length `0`, which is `<= min` whenever the operand lengths are
non-negative. -/
theorem c8_intersection_amended (a b : DateRange) (la lb : ℤ)
    (ha : date_range_length a = .ok la) (hb : date_range_length b = .ok lb) :
    date_range_intersection a b = date_range_intersection b a ∧
    (date_range_intersection a b = EMPTY_INTERSECTION ∨
      ∃ lr, date_range_length (date_range_intersection a b) = .ok lr ∧ lr ≤ min la lb) := by
  refine ⟨date_range_intersection_comm a b, ?_⟩
  rw [date_range_length_eq_ok] at ha hb
  obtain ⟨hNa, hla⟩ := ha
  obtain ⟨hNb, hlb⟩ := hb
  obtain ⟨as, ae⟩ := a
  obtain ⟨bs, be⟩ := b
  simp only [not_and, not_not] at hNa hNb
  dsimp only at hNa hNb hla hlb
  subst hla hlb
  by_cases hlt : dr_lt ⟨bs, be⟩ ⟨as, ae⟩
  · have hlt' : bs < as ∨ (bs = as ∧ be < ae) := hlt
    rw [inter_of_lt _ _ hlt]
    dsimp only
    split_ifs with hemp
    · exact Or.inl rfl
    · simp only [DateRange.mk.injEq, not_and, ge_iff_le, not_le, ne_eq] at hemp
      refine Or.inr ⟨min be ae - as, ?_, ?_⟩
      · rw [date_range_length_eq_ok]
        refine ⟨?_, by dsimp only⟩
        dsimp only
        simp only [not_and, not_not]
        intro hmin
        omega
      · simp only [le_min_iff]
        omega
  · have hlt' : ¬(bs < as ∨ (bs = as ∧ be < ae)) := hlt
    rw [inter_of_not_lt _ _ hlt]
    dsimp only
    split_ifs with hemp
    · exact Or.inl rfl
    · simp only [DateRange.mk.injEq, not_and, ge_iff_le, not_le, ne_eq] at hemp
      refine Or.inr ⟨min ae be - bs, ?_, ?_⟩
      · rw [date_range_length_eq_ok]
        refine ⟨?_, by dsimp only⟩
        dsimp only
        simp only [not_and, not_not]
        intro hmin
        omega
      · simp only [le_min_iff]
        omega

/-- Witness for C8's amended claim on two overlapping January 2014 ranges. -/
theorem c8_witness :
    date_range_intersection ⟨jan2014 1, jan2014 31⟩ ⟨jan2014 16, jan2014 46⟩ =
        date_range_intersection ⟨jan2014 16, jan2014 46⟩ ⟨jan2014 1, jan2014 31⟩ ∧
    (date_range_intersection ⟨jan2014 1, jan2014 31⟩ ⟨jan2014 16, jan2014 46⟩ =
        EMPTY_INTERSECTION ∨
      ∃ lr,
        date_range_length
            (date_range_intersection ⟨jan2014 1, jan2014 31⟩ ⟨jan2014 16, jan2014 46⟩) =
          .ok lr ∧ lr ≤ min 30 30) :=
  c8_intersection_amended ⟨jan2014 1, jan2014 31⟩ ⟨jan2014 16, jan2014 46⟩ 30 30
    (by decide) (by decide)

/-- Counterexample to C8 as stated: for the disjoint bounded ranges
`[Jan 1, Jan 2)` and `[Jan 3, Jan 4)` the intersection is the empty
sentinel AND the sentinel's length `0` is `<= min(1, 1)`, so the two arms
of the claimed exclusive-or hold simultaneously. -/
theorem c8_counterexample :
    date_range_intersection ⟨jan2014 1, jan2014 2⟩ ⟨jan2014 3, jan2014 4⟩ =
        EMPTY_INTERSECTION ∧
    date_range_length
        (date_range_intersection ⟨jan2014 1, jan2014 2⟩ ⟨jan2014 3, jan2014 4⟩) = .ok 0 ∧
    date_range_length ⟨jan2014 1, jan2014 2⟩ = .ok 1 ∧
    date_range_length ⟨jan2014 3, jan2014 4⟩ = .ok 1 ∧
    ¬Xor' (date_range_intersection ⟨jan2014 1, jan2014 2⟩ ⟨jan2014 3, jan2014 4⟩ =
          EMPTY_INTERSECTION)
        (∃ lr,
          date_range_length
              (date_range_intersection ⟨jan2014 1, jan2014 2⟩ ⟨jan2014 3, jan2014 4⟩) =
            .ok lr ∧ lr ≤ min 1 1) := by
  have hinter :
      date_range_intersection ⟨jan2014 1, jan2014 2⟩ ⟨jan2014 3, jan2014 4⟩ =
        EMPTY_INTERSECTION := by decide
  have hlen :
      date_range_length
          (date_range_intersection ⟨jan2014 1, jan2014 2⟩ ⟨jan2014 3, jan2014 4⟩) =
        .ok 0 := by
    rw [hinter]
    decide
  refine ⟨hinter, hlen, by decide, by decide, ?_⟩
  intro hxor
  rcases hxor with ⟨_, hq⟩ | ⟨_, hp⟩
  · exact hq ⟨0, hlen, by decide⟩
  · exact hp hinter

/-- Claim C9 (amended): for a zero-length `a = [d, d)` at an actual date
(`d` is not the `FUTURE` sentinel) and any range `b` with
`b.start <= b.end_exclusive`, `date_range_overlap_fraction(a, b)` returns
`1.0` when `b.start <= d < b.end_exclusive` OR when `b` is the identical
zero-length range `[d, d)` (the `i == a` fast path fires), and `0.0`
otherwise; in every such case no division by `length(a)` occurs and no
exception is raised. -/
theorem c9_zero_length_overlap_amended (d : ℤ) (b : DateRange)
    (hb : b.start ≤ b.end_exclusive) (hd : d ≠ FUTURE) :
    date_range_overlap_fraction ⟨d, d⟩ b =
      .ok (if b.start ≤ d ∧ d < b.end_exclusive ∨ b = ⟨d, d⟩ then 1 else 0) := by
  obtain ⟨s, e⟩ := b
  dsimp only at hb
  dsimp only
  have hdFut : (⟨d, d⟩ : DateRange) ≠ EMPTY_INTERSECTION := by
    unfold EMPTY_INTERSECTION
    simp only [ne_eq, DateRange.mk.injEq, not_and]
    omega
  by_cases hin : s ≤ d ∧ d < e
  · -- the instant lies inside `b`: intersection collapses to `[d, d)`
    have hI : date_range_intersection ⟨d, d⟩ ⟨s, e⟩ = ⟨d, d⟩ := by
      by_cases hlt : dr_lt ⟨s, e⟩ ⟨d, d⟩
      · have hlt' : s < d ∨ (s = d ∧ e < d) := hlt
        rw [inter_of_lt _ _ hlt]
        dsimp only
        rw [if_neg (by push_neg; omega)]
        have hmin : min e d = d := by omega
        rw [hmin]
      · have hlt' : ¬(s < d ∨ (s = d ∧ e < d)) := hlt
        rw [inter_of_not_lt _ _ hlt]
        dsimp only
        rw [if_neg (by push_neg; omega)]
        have hs : s = d := by omega
        have hmin : min d e = d := by omega
        rw [hmin, hs]
    unfold date_range_overlap_fraction
    rw [hI, if_pos rfl, if_pos (Or.inl hin)]
  · by_cases heq : s = d ∧ e = d
    · -- `b` is the identical zero-length range: the `i == a` path
      rw [heq.1, heq.2]
      rw [overlap_self]
      rw [if_pos (Or.inr rfl)]
    · -- the instant lies outside `b`: intersection is the sentinel
      have hI : date_range_intersection ⟨d, d⟩ ⟨s, e⟩ = EMPTY_INTERSECTION := by
        by_cases hlt : dr_lt ⟨s, e⟩ ⟨d, d⟩
        · have hlt' : s < d ∨ (s = d ∧ e < d) := hlt
          rw [inter_of_lt _ _ hlt]
          dsimp only
          rw [if_pos ⟨by omega, by omega⟩]
        · have hlt' : ¬(s < d ∨ (s = d ∧ e < d)) := hlt
          rw [inter_of_not_lt _ _ hlt]
          dsimp only
          rw [if_pos ⟨by omega, by omega⟩]
      have hcond : ¬(s ≤ d ∧ d < e ∨ (⟨s, e⟩ : DateRange) = ⟨d, d⟩) := by
        rintro (h | h)
        · exact hin h
        · rw [DateRange.mk.injEq] at h
          exact heq h
      unfold date_range_overlap_fraction
      rw [hI, if_neg hdFut.symm, if_pos rfl, if_neg hcond]

/-- Witness for C9's amended claim: the source doctest
`overlap_fraction([Jan 2, Jan 2), [Jan 1, Feb 3)) == 1.0`. -/
theorem c9_witness :
    date_range_overlap_fraction ⟨jan2014 2, jan2014 2⟩ ⟨jan2014 1, jan2014 34⟩ = .ok 1 := by
  rw [c9_zero_length_overlap_amended (jan2014 2) ⟨jan2014 1, jan2014 34⟩ (by decide) (by decide),
    if_pos (Or.inl ⟨by decide, by decide⟩)]

/-- Counterexample to C9 as stated: for `a = b = [Jan 1, Jan 1)` the
instant `Jan 1` does NOT lie within `b`'s closed-open bounds (they are
empty), yet the code returns `1.0`, not the claimed `0.0`. -/
theorem c9_counterexample :
    date_range_overlap_fraction ⟨jan2014 1, jan2014 1⟩ ⟨jan2014 1, jan2014 1⟩ = .ok 1 ∧
    ¬(jan2014 1 ≤ jan2014 1 ∧ jan2014 1 < jan2014 1) :=
  ⟨overlap_self _, by decide⟩

/-- Setting a key in the empty dict appends it. -/
theorem dictSet_nil (k : String) (v : ℚ) : dictSet [] k v = [(k, v)] := by
  simp [dictSet]

/-- Adding a key to the empty dict appends it. -/
theorem dictAdd_nil (k : String) (v : ℚ) : dictAdd [] k v = [(k, v)] := by
  simp [dictAdd]

/-- Claim C5 (amended): for every payment whose payer and payee differ,
`dues_for_payment` returns the two-entry map
`{payer: -amount, payee: +amount}`, whose values sum exactly to zero, and
never fails.  (When payer = payee the dict literal collapses to one key
and the function can fail; see the counterexample.) -/
theorem c5_dues_for_payment_amended (p : Payment) (h : p.payer ≠ p.payee) :
    dues_for_payment p = .ok [(p.payer, -p.amount), (p.payee, p.amount)] ∧
    sumValues [(p.payer, -p.amount), (p.payee, p.amount)] = 0 := by
  have hsum : sumValues [(p.payer, -p.amount), (p.payee, p.amount)] = 0 := by
    simp [sumValues]
  refine ⟨?_, hsum⟩
  have h2 : dictSet [(p.payer, -p.amount)] p.payee p.amount =
      [(p.payer, -p.amount), (p.payee, p.amount)] := by
    simp [dictSet, h]
  simp only [dues_for_payment, dictSet_nil, h2, hsum, round2_zero]
  simp

/-- Witness for C5's amended claim: Bob pays Alice $100. -/
theorem c5_witness :
    dues_for_payment ⟨"Bob", "Alice", jan2014 5, 100⟩ =
        .ok [("Bob", -100), ("Alice", 100)] ∧
    sumValues [("Bob", (-100 : ℚ)), ("Alice", 100)] = 0 :=
  c5_dues_for_payment_amended ⟨"Bob", "Alice", jan2014 5, 100⟩ (by decide)

/-- Counterexample to C5 as stated: a self-payment (`payer == payee`) of
$100 collapses the dict literal to `{Bob: +100}`, the zero-sum check
fails, and `dues_for_payment` raises instead of returning. -/
theorem c5_counterexample :
    dues_for_payment ⟨"Bob", "Bob", jan2014 5, 100⟩ =
      .error (.runtimeError paymentFailedMsg) := by
  have h2 : dictSet [("Bob", -(100 : ℚ))] "Bob" 100 = [("Bob", 100)] := by
    simp [dictSet]
  have hs : sumValues [(("Bob" : String), (100 : ℚ))] = 100 := by
    simp [sumValues]
  simp only [dues_for_payment, dictSet_nil, h2, hs, round2_hundred]
  rw [if_pos (by norm_num)]

/-- Counterexample to C10 as stated: `split_evenly(100.0, ())` raises the
reconciliation `RuntimeError`, not `ZeroDivisionError` — the dict
comprehension body (and hence its division) never runs on an empty
iterable. -/
theorem c10_counterexample :
    split_evenly (100 : ℚ) [] = .error (.runtimeError splitAmountFailedMsg) ∧
    split_evenly (100 : ℚ) [] ≠ .error .zeroDivisionError := by
  have h : split_evenly (100 : ℚ) [] = .error (.runtimeError splitAmountFailedMsg) := by
    simp only [split_evenly, List.foldl_nil, sumValues, List.map_nil, List.sum_nil,
      round2_zero]
    rw [if_pos (by rw [round2_hundred]; norm_num)]
  refine ⟨h, ?_⟩
  rw [h]
  simp

/-- Claim C10 (amended): `split_evenly` with an empty participant list
performs no division at all (the dict comprehension body never runs): it
returns the empty dues dict when the amount rounds to zero cents and
otherwise fails with the reconciliation `RuntimeError('splitting amount
failed')` — not `ZeroDivisionError`.  End to end, a $100 shared cost
whose implicit "everyone" group resolves to no residents fails with that
same reconciliation error. -/
theorem c10_split_evenly_empty_amended (amount : ℚ) :
    split_evenly amount [] =
      (if round2 amount = 0 then .ok [] else .error (.runtimeError splitAmountFailedMsg)) ∧
    dues_for_shared_cost ⟨"beer", "Bob", jan2014 20, none, 100⟩
        ⟨"house", 0, [⟨"Bob", [⟨jan2014 1, jan2014 16⟩]⟩]⟩ =
      .error (.runtimeError splitAmountFailedMsg) := by
  have hmain : ∀ a : ℚ, split_evenly a [] =
      (if round2 a = 0 then .ok [] else .error (.runtimeError splitAmountFailedMsg)) := by
    intro a
    simp only [split_evenly, List.foldl_nil, sumValues, List.map_nil, List.sum_nil,
      round2_zero]
    by_cases h0 : round2 a = 0
    · rw [if_neg (by rw [h0]; simp), if_pos h0]
    · rw [if_pos (fun hc => h0 hc.symm), if_neg h0]
  refine ⟨hmain amount, ?_⟩
  have hres : resident_names_during_date_range ⟨jan2014 20, jan2014 20⟩
      [⟨"Bob", [⟨jan2014 1, jan2014 16⟩]⟩] = .ok [] := by
    have hfrac :
        date_range_overlap_fraction ⟨jan2014 20, jan2014 20⟩ ⟨jan2014 1, jan2014 16⟩ =
          .ok 0 := by
      rw [c9_zero_length_overlap_amended (jan2014 20) ⟨jan2014 1, jan2014 16⟩ (by decide)
          (by decide)]
      rw [if_neg (by decide)]
    simp [resident_names_during_date_range, resident_names_go, person_residency_fraction,
      residency_fraction_sum, hfrac]
  have hsplit : split_evenly (100 : ℚ) [] = .error (.runtimeError splitAmountFailedMsg) := by
    rw [hmain 100, if_neg (by rw [round2_hundred]; norm_num)]
  simp only [dues_for_shared_cost, date_range_of_day, hres, hsplit]

/-- If one step of `main`'s loop succeeds, the produced running total
passed the zero-sum check. -/
theorem ledger_run_ok_round (house : House) :
    ∀ (es : List LedgerEntry) (t : Dues) (out : List Dues),
      run_ledger_from house t es = .ok out → ∀ u ∈ out, round2 (sumValues u) = 0 := by
  intro es
  induction es with
  | nil =>
    intro t out h u hu
    rw [run_ledger_from] at h
    injection h with h'
    subst h'
    simp at hu
  | cons i es ih =>
    intro t out h u hu
    simp only [run_ledger_from] at h
    split at h
    · simp at h
    · split at h <;> rename_i hround
      · simp at h
      · split at h
        · simp at h
        · rename_i ts hrec
          injection h with h'
          subst h'
          rcases List.mem_cons.mp hu with hu1 | hu2
          · rw [hu1]
            simpa using hround
          · exact ih _ _ hrec u hu2

/-- An error from a prefix of the ledger is the result for any extension:
entries after the failing one are never processed. -/
theorem ledger_run_error_append (house : House) :
    ∀ (es rest : List LedgerEntry) (t : Dues) (e : PyError),
      run_ledger_from house t es = .error e →
      run_ledger_from house t (es ++ rest) = .error e := by
  intro es
  induction es with
  | nil =>
    intro rest t e h
    rw [run_ledger_from] at h
    simp at h
  | cons i es ih =>
    intro rest t e h
    rw [List.cons_append]
    simp only [run_ledger_from] at h ⊢
    split at h <;> rename_i heq
    · exact h
    · split at h <;> rename_i hround
      · rw [if_pos hround]
        exact h
      · rw [if_neg hround]
        split at h
        · rename_i e2 hrec
          simp only [ih rest _ _ hrec]
          exact h
        · simp at h

/-- Any property preserved by `split_date_range` holds of every fragment
produced by the slicing fold. -/
theorem slice_fold_inv (P : DateRange → Prop)
    (hP : ∀ f d, P f → ∀ g ∈ split_date_range f d, P g) :
    ∀ (ds : List Int) (drs : List DateRange), (∀ f ∈ drs, P f) →
      ∀ g ∈ ds.foldl (fun drs d => drs.flatMap (fun r => split_date_range r d)) drs, P g := by
  intro ds
  induction ds with
  | nil =>
    intro drs h g hg
    rw [List.foldl_nil] at hg
    exact h g hg
  | cons d ds ih =>
    intro drs h g hg
    rw [List.foldl_cons] at hg
    refine ih _ ?_ g hg
    intro f hf
    rw [List.mem_flatMap] at hf
    obtain ⟨r, hr, hf'⟩ := hf
    exact hP r d (h r hr) f hf'

/-- Every fragment of slicing a forward range stays inside it, forward. -/
theorem slice_fragments_inv (S E : ℤ) (hSE : S ≤ E) (ds : List Int) :
    ∀ f ∈ slice_date_range ⟨S, E⟩ ds,
      S ≤ f.start ∧ f.start ≤ f.end_exclusive ∧ f.end_exclusive ≤ E := by
  intro f hf
  refine slice_fold_inv
    (fun g => S ≤ g.start ∧ g.start ≤ g.end_exclusive ∧ g.end_exclusive ≤ E)
    ?_ ds [⟨S, E⟩] ?_ f hf
  · intro g d hg x hx
    unfold split_date_range at hx
    split_ifs at hx with hc
    · simp only [List.mem_cons, List.mem_singleton, List.not_mem_nil, or_false] at hx
      obtain ⟨g1, g2, g3⟩ := hg
      obtain ⟨hc1, hc2⟩ := hc
      rcases hx with hx | hx <;> rw [hx] <;>
        refine ⟨?_, ?_, ?_⟩ <;> dsimp only <;> omega
    · simp only [List.mem_singleton] at hx
      rw [hx]
      exact hg
  · intro g hg
    simp only [List.mem_singleton] at hg
    rw [hg]
    exact ⟨le_refl S, hSE, le_refl E⟩

/-- Summing a function over a `flatMap` sums the per-element sums. -/
theorem sum_map_flatMap (l : List DateRange) (g : DateRange → List DateRange)
    (h : DateRange → ℤ) :
    (((l.flatMap g).map h).sum) = (l.map (fun x => (((g x).map h).sum))).sum := by
  induction l with
  | nil => simp
  | cons x xs ih => simp [List.flatMap_cons, ih]

/-- One split preserves the total length (`timedelta` arithmetic). -/
theorem split_lengths (f : DateRange) (d : Int) :
    ((split_date_range f d).map (fun g => g.end_exclusive - g.start)).sum =
      f.end_exclusive - f.start := by
  unfold split_date_range
  split_ifs with hc
  · simp only [List.map_cons, List.map_nil, List.sum_cons, List.sum_nil]
    omega
  · simp

/-- The slicing fold preserves the total length of the fragment list. -/
theorem slice_go_lengths :
    ∀ (ds : List Int) (drs : List DateRange),
      ((ds.foldl (fun drs d => drs.flatMap (fun r => split_date_range r d)) drs).map
            (fun g => g.end_exclusive - g.start)).sum =
        ((drs.map (fun g => g.end_exclusive - g.start))).sum := by
  intro ds
  induction ds with
  | nil =>
    intro drs
    rw [List.foldl_nil]
  | cons d ds ih =>
    intro drs
    rw [List.foldl_cons, ih, sum_map_flatMap]
    simp only [split_lengths]

/-- The fragments of a sliced range length-sum to the whole range. -/
theorem slice_lengths_sum (dr : DateRange) (ds : List Int) :
    ((slice_date_range dr ds).map (fun g => g.end_exclusive - g.start)).sum =
      dr.end_exclusive - dr.start := by
  unfold slice_date_range
  rw [slice_go_lengths]
  simp

/-- A backward or zero-length range is never split. -/
theorem slice_degenerate (S E : ℤ) (h : ¬S < E) (ds : List Int) :
    slice_date_range ⟨S, E⟩ ds = [⟨S, E⟩] := by
  unfold slice_date_range
  induction ds with
  | nil => rw [List.foldl_nil]
  | cons d ds ih =>
    rw [List.foldl_cons]
    have hstep : ([(⟨S, E⟩ : DateRange)]).flatMap (fun r => split_date_range r d) =
        [⟨S, E⟩] := by
      simp only [List.flatMap_cons, List.flatMap_nil, List.append_nil]
      unfold split_date_range
      rw [if_neg (by dsimp only; omega)]
    rw [hstep]
    exact ih

/-- Mapping the per-fragment sub-bill construction succeeds whenever every
fragment's overlap fraction evaluates. -/
theorem slice_bill_map_ok (bill : Bill) (q : DateRange → ℚ) :
    ∀ (frags : List DateRange),
      (∀ f ∈ frags, date_range_overlap_fraction bill.for_dates f = .ok (q f)) →
      slice_bill_map bill frags =
        .ok (frags.map (fun f =>
          { bill with for_dates := f, amount := bill.amount * q f })) := by
  intro frags
  induction frags with
  | nil =>
    intro _
    rw [slice_bill_map]
    simp
  | cons f fs ih =>
    intro h
    rw [slice_bill_map]
    rw [h f (by simp)]
    rw [ih (fun g hg => h g (by simp [hg]))]
    simp

/-- Distributing a constant scale over a summed list of cast lengths. -/
theorem sum_map_mul_div (A L : ℚ) (g : DateRange → ℤ) (l : List DateRange) :
    ((l.map (fun f => A * ((g f : ℚ) / L))).sum) =
      A * ((((l.map g).sum : ℤ) : ℚ) / L) := by
  induction l with
  | nil => simp
  | cons x xs ih =>
    simp only [List.map_cons, List.sum_cons, ih]
    push_cast
    ring

/-- Claim C4: for every bill whose date range has actual (non-sentinel)
endpoints and every list of change dates (dates outside the range
included, and the empty list too), `slice_bill` succeeds, and the slice
amounts sum exactly to the bill amount — in particular equal to the cent —
so its reconciliation check never raises. -/
theorem c4_slice_bill_amount_sum (bill : Bill) (ds : List Int)
    (hS : bill.for_dates.start < FUTURE) (hE : bill.for_dates.end_exclusive < FUTURE) :
    ∃ bs, slice_bill bill ds = .ok bs ∧
      (bs.map Bill.amount).sum = bill.amount ∧
      round2 ((bs.map Bill.amount).sum) = round2 bill.amount := by
  obtain ⟨desc, payer, ⟨S, E⟩, pod, amt⟩ := bill
  dsimp only at hS hE ⊢
  by_cases hSE : S < E
  · have hfrac : ∀ f ∈ slice_date_range ⟨S, E⟩ ds,
        date_range_overlap_fraction ⟨S, E⟩ f =
          .ok (((f.end_exclusive - f.start : ℤ) : ℚ) / ((E - S : ℤ) : ℚ)) := by
      intro f hf
      obtain ⟨h1, h2, h3⟩ := slice_fragments_inv S E (le_of_lt hSE) ds f hf
      obtain ⟨fs, fe⟩ := f
      dsimp only at h1 h2 h3 ⊢
      exact overlap_fraction_within S E fs fe h1 h2 h3 hSE hE
    have hmap := slice_bill_map_ok ⟨desc, payer, ⟨S, E⟩, pod, amt⟩
      (fun f => ((f.end_exclusive - f.start : ℤ) : ℚ) / ((E - S : ℤ) : ℚ))
      (slice_date_range ⟨S, E⟩ ds) (by dsimp only; exact hfrac)
    have hsum : (((slice_date_range ⟨S, E⟩ ds).map fun f =>
        ({ description := desc, paid_by := payer, for_dates := f, paid_on_date := pod,
           amount := amt * (((f.end_exclusive - f.start : ℤ) : ℚ) / ((E - S : ℤ) : ℚ)) } :
          Bill)).map Bill.amount).sum = amt := by
      rw [List.map_map]
      have hcomp : (Bill.amount ∘ fun f =>
          ({ description := desc, paid_by := payer, for_dates := f, paid_on_date := pod,
             amount := amt * (((f.end_exclusive - f.start : ℤ) : ℚ) / ((E - S : ℤ) : ℚ)) } :
            Bill)) =
          fun f => amt * (((f.end_exclusive - f.start : ℤ) : ℚ) / ((E - S : ℤ) : ℚ)) := rfl
      rw [hcomp, sum_map_mul_div amt ((E - S : ℤ) : ℚ)
        (fun f => f.end_exclusive - f.start) (slice_date_range ⟨S, E⟩ ds)]
      rw [slice_lengths_sum ⟨S, E⟩ ds]
      dsimp only
      rw [div_self (by simp only [ne_eq, Int.cast_eq_zero]; omega), mul_one]
    refine ⟨_, ?_, hsum, by rw [hsum]⟩
    unfold slice_bill
    dsimp only
    simp only [hmap]
    rw [hsum]
    rw [if_neg (by simp)]
  · have hdeg := slice_degenerate S E hSE ds
    have hmap := slice_bill_map_ok ⟨desc, payer, ⟨S, E⟩, pod, amt⟩ (fun _ => 1)
      [⟨S, E⟩] (by
        intro f hf
        simp only [List.mem_singleton] at hf
        rw [hf]
        exact overlap_self _)
    have hsum : ((([(⟨S, E⟩ : DateRange)]).map fun f =>
        ({ description := desc, paid_by := payer, for_dates := f, paid_on_date := pod,
           amount := amt * 1 } : Bill)).map Bill.amount).sum = amt := by
      simp
    refine ⟨_, ?_, hsum, by rw [hsum]⟩
    unfold slice_bill
    dsimp only
    rw [hdeg]
    simp only [hmap]
    rw [hsum]
    rw [if_neg (by simp)]

/-- Witness for C4: the $100 January bill sliced at Jan 16. -/
theorem c4_witness :
    ∃ bs,
      slice_bill ⟨"gas", "Bob", ⟨jan2014 1, jan2014 31⟩, jan2014 31, 100⟩ [jan2014 16] =
        .ok bs ∧
      (bs.map Bill.amount).sum = 100 ∧
      round2 ((bs.map Bill.amount).sum) = round2 100 :=
  c4_slice_bill_amount_sum ⟨"gas", "Bob", ⟨jan2014 1, jan2014 31⟩, jan2014 31, 100⟩
    [jan2014 16] (by decide) (by decide)

/-- Membership after a `set.add` of one name. -/
theorem addName_mem (names : List String) (n x : String) :
    x ∈ addName names n ↔ x ∈ names ∨ x = n := by
  unfold addName
  split_ifs with h
  · constructor
    · exact Or.inl
    · rintro (hx | hx)
      · exact hx
      · rw [hx]
        exact h
  · simp [List.mem_append]

/-- `set.add` keeps the name list duplicate-free. -/
theorem addName_nodup (names : List String) (n : String) (h : names.Nodup) :
    (addName names n).Nodup := by
  unfold addName
  split_ifs with hm
  · exact h
  · refine List.Nodup.append h (List.nodup_singleton n) ?_
    intro a ha hb
    simp only [List.mem_singleton] at hb
    rw [hb] at ha
    exact hm ha

/-- A successful occupancy resolution contains exactly the accumulator
names plus the names of the people whose residency fraction is `1.0`. -/
theorem resident_go_ok_mem (dr : DateRange) :
    ∀ (ps : List Person) (acc names : List String),
      resident_names_go dr acc ps = .ok names →
      ∀ x, x ∈ names ↔
        x ∈ acc ∨ ∃ p ∈ ps, p.name = x ∧ person_residency_fraction dr p = .ok 1 := by
  intro ps
  induction ps with
  | nil =>
    intro acc names h x
    rw [resident_names_go] at h
    injection h with h'
    subst h'
    simp
  | cons p ps ih =>
    intro acc names h x
    rw [resident_names_go] at h
    split at h <;> rename_i heq
    · simp at h
    · rename_i frac
      split at h <;> rename_i h1
      · rw [ih _ _ h x]
        simp only [addName_mem]
        constructor
        · rintro ((hx | hx) | ⟨q, hq, hqn, hqf⟩)
          · exact Or.inl hx
          · refine Or.inr ⟨p, by simp, hx.symm, ?_⟩
            rw [heq, h1]
          · exact Or.inr ⟨q, by simp [hq], hqn, hqf⟩
        · rintro (hx | ⟨q, hq, hqn, hqf⟩)
          · exact Or.inl (Or.inl hx)
          · rcases List.mem_cons.mp hq with hq1 | hq2
            · rw [hq1] at hqn
              exact Or.inl (Or.inr hqn.symm)
            · exact Or.inr ⟨q, hq2, hqn, hqf⟩
      · split at h <;> rename_i h2
        · simp at h
        · rw [ih _ _ h x]
          constructor
          · rintro (hx | ⟨q, hq, hqn, hqf⟩)
            · exact Or.inl hx
            · exact Or.inr ⟨q, List.mem_cons_of_mem p hq, hqn, hqf⟩
          · rintro (hx | ⟨q, hq, hqn, hqf⟩)
            · exact Or.inl hx
            · rcases List.mem_cons.mp hq with hq1 | hq2
              · rw [hq1] at hqf
                rw [heq] at hqf
                injection hqf with h'
                exact absurd h' h1
              · exact Or.inr ⟨q, hq2, hqn, hqf⟩

/-- When occupancy resolution succeeds, every person's residency fraction
was exactly `1.0` or exactly `0.0`. -/
theorem resident_go_ok_fracs (dr : DateRange) :
    ∀ (ps : List Person) (acc names : List String),
      resident_names_go dr acc ps = .ok names →
      ∀ p ∈ ps, person_residency_fraction dr p = .ok 1 ∨
        person_residency_fraction dr p = .ok 0 := by
  intro ps
  induction ps with
  | nil =>
    intro acc names _ p hp
    simp at hp
  | cons p ps ih =>
    intro acc names h q hq
    rw [resident_names_go] at h
    split at h <;> rename_i heq
    · simp at h
    · rename_i frac
      split at h <;> rename_i h1
      · rcases List.mem_cons.mp hq with hq1 | hq2
        · rw [hq1, heq, h1]
          exact Or.inl rfl
        · exact ih _ _ h q hq2
      · split at h <;> rename_i h2
        · simp at h
        · rcases List.mem_cons.mp hq with hq1 | hq2
          · rw [hq1, heq]
            rw [not_not] at h2
            rw [h2]
            exact Or.inr rfl
          · exact ih _ _ h q hq2

/-- When every fraction evaluates and some person's fraction is neither
`1.0` nor `0.0`, occupancy resolution raises the partial-residency
`RuntimeError`. -/
theorem resident_go_err (dr : DateRange) :
    ∀ (ps : List Person) (acc : List String),
      (∀ p ∈ ps, ∃ q, person_residency_fraction dr p = .ok q) →
      (∃ p ∈ ps, ∃ q, person_residency_fraction dr p = .ok q ∧ q ≠ 1 ∧ q ≠ 0) →
      resident_names_go dr acc ps = .error (.runtimeError partResidencyMsg) := by
  intro ps
  induction ps with
  | nil =>
    intro acc _ hbad
    obtain ⟨p, hp, _⟩ := hbad
    simp at hp
  | cons p ps ih =>
    intro acc hall hbad
    rw [resident_names_go]
    obtain ⟨q0, hq0⟩ := hall p (by simp)
    simp only [hq0]
    by_cases h1 : q0 = 1
    · rw [if_pos h1]
      refine ih (addName acc p.name) (fun r hr => hall r (List.mem_cons_of_mem p hr)) ?_
      obtain ⟨pb, hpb, qb, hqb, hqb1, hqb0⟩ := hbad
      rcases List.mem_cons.mp hpb with hb | hb
      · rw [hb] at hqb
        rw [hq0] at hqb
        injection hqb with h'
        rw [← h', h1] at hqb1
        exact absurd rfl hqb1
      · exact ⟨pb, hb, qb, hqb, hqb1, hqb0⟩
    · rw [if_neg h1]
      by_cases h0 : q0 = 0
      · rw [if_neg (by simpa using h0)]
        refine ih acc (fun r hr => hall r (List.mem_cons_of_mem p hr)) ?_
        obtain ⟨pb, hpb, qb, hqb, hqb1, hqb0⟩ := hbad
        rcases List.mem_cons.mp hpb with hb | hb
        · rw [hb] at hqb
          rw [hq0] at hqb
          injection hqb with h'
          rw [← h', h0] at hqb0
          exact absurd rfl hqb0
        · exact ⟨pb, hb, qb, hqb, hqb1, hqb0⟩
      · rw [if_pos h0]

/-- Claim C3: whenever every person's summed residency fraction evaluates
(and names are unique, as the data model requires), the occupancy
resolver includes a person in the returned set iff their fraction is
exactly `1.0`, excludes them iff it is exactly `0.0`, and for any person
whose fraction is any other value it raises the fatal partial-residency
`RuntimeError` instead of returning a result. -/
theorem c3_resident_names_trichotomy (dr : DateRange) (people : List Person)
    (hdef : ∀ p ∈ people, ∃ q, person_residency_fraction dr p = .ok q)
    (hnames : (people.map Person.name).Nodup) :
    (∀ names, resident_names_during_date_range dr people = .ok names →
      ∀ p ∈ people,
        (p.name ∈ names ↔ person_residency_fraction dr p = .ok 1) ∧
        (p.name ∉ names ↔ person_residency_fraction dr p = .ok 0)) ∧
    ((∃ p ∈ people, ∃ q, person_residency_fraction dr p = .ok q ∧ q ≠ 1 ∧ q ≠ 0) →
      resident_names_during_date_range dr people =
        .error (.runtimeError partResidencyMsg)) := by
  constructor
  · intro names h p hp
    have hmem := resident_go_ok_mem dr people [] names h
    have hfr := resident_go_ok_fracs dr people [] names h p hp
    have hinj : ∀ q ∈ people, q.name = p.name → q = p := by
      intro q hq hqp
      exact List.inj_on_of_nodup_map hnames hq hp hqp
    constructor
    · rw [hmem p.name]
      simp only [List.not_mem_nil, false_or]
      constructor
      · rintro ⟨q, hq, hqn, hqf⟩
        rw [hinj q hq hqn] at hqf
        exact hqf
      · intro h1
        exact ⟨p, hp, rfl, h1⟩
    · rw [hmem p.name]
      simp only [List.not_mem_nil, false_or]
      constructor
      · intro hnot
        rcases hfr with h1 | h0
        · exact absurd ⟨p, hp, rfl, h1⟩ hnot
        · exact h0
      · rintro h0 ⟨q, hq, hqn, hqf⟩
        rw [hinj q hq hqn] at hqf
        have h10 := h0.symm.trans hqf
        injection h10 with h'
        exact absurd h' (by norm_num)
  · intro hbad
    exact resident_go_err dr people [] hdef hbad

/-- Witness for C3: Bob, resident exactly for the queried interval, is in
the resident set iff his fraction is 1 (it is), and so on. -/
theorem c3_witness :
    (("Bob" ∈ ["Bob"]) ↔ person_residency_fraction ⟨jan2014 1, jan2014 16⟩
        ⟨"Bob", [⟨jan2014 1, jan2014 16⟩]⟩ = .ok 1) ∧
    (("Bob" ∉ ["Bob"]) ↔ person_residency_fraction ⟨jan2014 1, jan2014 16⟩
        ⟨"Bob", [⟨jan2014 1, jan2014 16⟩]⟩ = .ok 0) := by
  refine (c3_resident_names_trichotomy ⟨jan2014 1, jan2014 16⟩
      [⟨"Bob", [⟨jan2014 1, jan2014 16⟩]⟩] ?_ (by simp)).1
    ["Bob"] ?_ ⟨"Bob", [⟨jan2014 1, jan2014 16⟩]⟩ (by simp)
  · intro p hp
    simp only [List.mem_singleton] at hp
    rw [hp]
    exact ⟨1, by simp [person_residency_fraction, residency_fraction_sum, overlap_self]⟩
  · simp [resident_names_during_date_range, resident_names_go, person_residency_fraction,
      residency_fraction_sum, overlap_self, addName]

/-- A successful occupancy resolution from a duplicate-free accumulator is
duplicate-free. -/
theorem resident_go_nodup (dr : DateRange) :
    ∀ (ps : List Person) (acc names : List String), acc.Nodup →
      resident_names_go dr acc ps = .ok names → names.Nodup := by
  intro ps
  induction ps with
  | nil =>
    intro acc names hacc h
    rw [resident_names_go] at h
    injection h with h'
    rw [← h']
    exact hacc
  | cons p ps ih =>
    intro acc names hacc h
    rw [resident_names_go] at h
    split at h <;> rename_i heq
    · simp at h
    · rename_i frac
      split at h <;> rename_i h1
      · exact ih _ _ (addName_nodup acc p.name hacc) h
      · split at h <;> rename_i h2
        · simp at h
        · exact ih _ _ hacc h

/-- Summing the dues dict built from one constant even share per name. -/
theorem sumValues_const_div (amount : ℚ) (names : List String) (hne : names ≠ []) :
    sumValues (names.map fun n => (n, amount / (names.length : ℚ))) = amount := by
  unfold sumValues
  rw [List.map_map]
  have hcomp : (Prod.snd ∘ fun n : String => (n, amount / (names.length : ℚ))) =
      fun _ => amount / (names.length : ℚ) := rfl
  rw [hcomp]
  rw [List.map_const', List.sum_replicate, nsmul_eq_mul]
  rw [mul_comm, div_mul_cancel₀]
  simp only [ne_eq, Nat.cast_eq_zero, List.length_eq_zero]
  exact hne

/-- The dict comprehension of `split_evenly` over fresh, duplicate-free
names is a plain association list of even shares. -/
theorem foldl_dictSet_fresh (v : ℚ) :
    ∀ (names : List String) (acc : Dues),
      (∀ n ∈ names, ∀ kv ∈ acc, kv.1 ≠ n) → names.Nodup →
      names.foldl (fun d person => dictSet d person v) acc =
        acc ++ names.map (fun n => (n, v)) := by
  intro names
  induction names with
  | nil =>
    intro acc _ _
    simp
  | cons n ns ih =>
    intro acc hfresh hnd
    rw [List.foldl_cons]
    have hset : dictSet acc n v = acc ++ [(n, v)] := by
      unfold dictSet
      rw [if_neg ?_]
      intro hany
      rw [List.any_eq_true] at hany
      obtain ⟨kv, hkv, hbeq⟩ := hany
      exact hfresh n (by simp) kv hkv (by simpa using hbeq)
    rw [hset, ih (acc ++ [(n, v)]) ?_ (List.Nodup.of_cons hnd)]
    · simp
    · intro m hm kv hkv
      rcases List.mem_append.mp hkv with hkv | hkv
      · exact hfresh m (by simp [hm]) kv hkv
      · simp only [List.mem_singleton] at hkv
        rw [hkv]
        dsimp only
        intro hc
        rw [hc] at hnd
        exact (List.nodup_cons.mp hnd).1 hm

/-- `split_evenly` on a non-empty duplicate-free name list returns the
even-share dict and its reconciliation check passes exactly. -/
theorem split_evenly_ok (amount : ℚ) (names : List String) (hne : names ≠ [])
    (hnd : names.Nodup) :
    split_evenly amount names =
      .ok (names.map (fun n => (n, amount / (names.length : ℚ)))) := by
  simp only [split_evenly]
  rw [foldl_dictSet_fresh _ names [] (by simp) hnd, List.nil_append]
  rw [sumValues_const_div amount names hne]
  rw [if_neg (by simp)]

/-- `bill_slice_personal_costs` succeeds with the even split whenever the
residents resolve, meet the minimum, and are non-empty. -/
theorem bill_slice_ok (s : Bill) (house : House) (ns : List String)
    (hres : resident_names_during_date_range s.for_dates house.people = .ok ns)
    (hlen : house.min_people ≤ ns.length) (hne : ns ≠ []) :
    bill_slice_personal_costs s house =
      .ok (ns.map (fun n => (n, s.amount / (ns.length : ℚ)))) := by
  have hnd : ns.Nodup :=
    resident_go_nodup s.for_dates house.people [] ns (by simp) hres
  unfold bill_slice_personal_costs
  simp only [hres]
  rw [if_neg (by omega)]
  simp only [split_evenly_ok s.amount ns hne hnd]
  rw [sumValues_const_div s.amount ns hne]
  rw [if_neg (by simp)]

/-- The slice loop of `dues_for_bill` raises the under-rented `ValueError`
whenever all slices resolve residents but some slice has fewer than
`min_people` of them. -/
theorem dues_slices_fold_err (house : House) :
    ∀ (slices : List Bill) (acc : Dues),
      (∀ s ∈ slices, ∃ ns,
        resident_names_during_date_range s.for_dates house.people = .ok ns) →
      (∃ s ∈ slices, ∃ ns,
        resident_names_during_date_range s.for_dates house.people = .ok ns ∧
        ns.length < house.min_people) →
      dues_slices_fold house slices acc = .error (.valueError underRentedMsg) := by
  intro slices
  induction slices with
  | nil =>
    intro acc _ hbad
    obtain ⟨s, hs, _⟩ := hbad
    simp at hs
  | cons s ss ih =>
    intro acc hall hbad
    rw [dues_slices_fold]
    obtain ⟨ns, hns⟩ := hall s (by simp)
    by_cases hu : ns.length < house.min_people
    · have hstep : bill_slice_personal_costs s house =
          .error (.valueError underRentedMsg) := by
        unfold bill_slice_personal_costs
        simp only [hns]
        rw [if_pos hu]
      simp only [hstep]
    · have hbad' : ∃ s' ∈ ss, ∃ ns',
          resident_names_during_date_range s'.for_dates house.people = .ok ns' ∧
          ns'.length < house.min_people := by
        obtain ⟨sb, hsb, nsb, hnsb, hub⟩ := hbad
        rcases List.mem_cons.mp hsb with hb | hb
        · rw [hb] at hnsb
          have := hns.symm.trans hnsb
          injection this with h'
          rw [← h'] at hub
          exact absurd hub hu
        · exact ⟨sb, hb, nsb, hnsb, hub⟩
      have hmin1 : 1 ≤ house.min_people := by
        obtain ⟨_, _, nsb, _, hub⟩ := hbad'
        omega
      have hne : ns ≠ [] := by
        intro hc
        apply hu
        rw [hc]
        simpa using hmin1
      have hstep := bill_slice_ok s house ns hns (by omega) hne
      simp only [hstep]
      exact ih (sum_dicts acc _) (fun r hr => hall r (List.mem_cons_of_mem s hr)) hbad'

/-- Claim C6: when the bill slices all resolve their residents and some
slice has fewer residents than `house.min_people`, `dues_for_bill` fails
with the under-rented `ValueError` (the spec's `UnderOccupancyError`). -/
theorem c6_under_occupancy (bill : Bill) (house : House) (slices : List Bill)
    (hs : slice_bill bill (house_move_dates house) = .ok slices)
    (hall : ∀ s ∈ slices, ∃ ns,
      resident_names_during_date_range s.for_dates house.people = .ok ns)
    (hbad : ∃ s ∈ slices, ∃ ns,
      resident_names_during_date_range s.for_dates house.people = .ok ns ∧
      ns.length < house.min_people) :
    dues_for_bill bill house = .error (.valueError underRentedMsg) := by
  unfold dues_for_bill
  simp only [hs]
  simp only [dues_slices_fold_err house slices _ hall hbad]

set_option maxHeartbeats 2000000 in
/-- Witness for C6: `min_people = 2` with Bob the only resident, and only
for part of the bill period — allocation fails under-rented. -/
theorem c6_witness :
    dues_for_bill ⟨"rent", "Bob", ⟨jan2014 1, jan2014 31⟩, jan2014 31, 100⟩
        ⟨"h", 2, [⟨"Bob", [⟨jan2014 1, jan2014 16⟩]⟩]⟩ =
      .error (.valueError underRentedMsg) := by
  have hres1 : resident_names_during_date_range ⟨jan2014 1, jan2014 16⟩
      [⟨"Bob", [⟨jan2014 1, jan2014 16⟩]⟩] = .ok ["Bob"] := by
    simp [resident_names_during_date_range, resident_names_go, person_residency_fraction,
      residency_fraction_sum, overlap_self, addName]
  have hov2 : date_range_overlap_fraction ⟨jan2014 16, jan2014 31⟩
      ⟨jan2014 1, jan2014 16⟩ = .ok 0 := by
    unfold date_range_overlap_fraction
    rw [(by decide : date_range_intersection ⟨jan2014 16, jan2014 31⟩
        ⟨jan2014 1, jan2014 16⟩ = EMPTY_INTERSECTION)]
    rw [if_neg (by decide), if_pos rfl]
  have hres2 : resident_names_during_date_range ⟨jan2014 16, jan2014 31⟩
      [⟨"Bob", [⟨jan2014 1, jan2014 16⟩]⟩] = .ok [] := by
    simp [resident_names_during_date_range, resident_names_go, person_residency_fraction,
      residency_fraction_sum, hov2]
  refine c6_under_occupancy _ _
    [⟨"rent", "Bob", ⟨jan2014 1, jan2014 16⟩, jan2014 31, 50⟩,
      ⟨"rent", "Bob", ⟨jan2014 16, jan2014 31⟩, jan2014 31, 50⟩] ?_ ?_ ?_
  · repeat first
      | norm_num [slice_bill, slice_bill_map, slice_date_range, split_date_range,
          house_move_dates, date_range_overlap_fraction, date_range_intersection,
          date_range_length, dr_lt, EMPTY_INTERSECTION, FUTURE, jan2014,
          DateRange.mk.injEq]
      | simp [slice_bill, slice_bill_map, slice_date_range, split_date_range,
          house_move_dates, date_range_overlap_fraction, date_range_intersection,
          date_range_length, dr_lt, EMPTY_INTERSECTION, FUTURE, jan2014,
          DateRange.mk.injEq]
  · intro s hs
    simp only [List.mem_cons, List.mem_singleton, List.not_mem_nil, or_false] at hs
    rcases hs with hs | hs <;> rw [hs]
    · exact ⟨["Bob"], hres1⟩
    · exact ⟨[], hres2⟩
  · exact ⟨⟨"rent", "Bob", ⟨jan2014 16, jan2014 31⟩, jan2014 31, 50⟩,
      List.mem_cons_of_mem _ (List.mem_singleton.mpr rfl), [], hres2, by simp⟩

/-- Claim C2: in `main`'s entry loop over a chronologically ordered
ledger, every running total produced after merging an entry's dues map
(values summed on key collision, inserted otherwise) rounds to zero
cents; and whenever processing a prefix fails, appending further entries
cannot change the outcome — the same error is raised and no later entry
is processed. -/
theorem c2_running_total_invariant (house : House) (entries rest : List LedgerEntry) :
    (∀ out, run_ledger house entries = .ok out → ∀ t ∈ out, round2 (sumValues t) = 0) ∧
    (∀ e, run_ledger house entries = .error e →
      run_ledger house (entries ++ rest) = .error e) :=
  ⟨fun out h t ht => ledger_run_ok_round house entries [] out h t ht,
    fun e h => ledger_run_error_append house entries rest [] e h⟩

/-- Witness for C2 on a one-payment ledger: its running total rounds to
zero cents. -/
theorem c2_witness : round2 (sumValues [("Bob", (-100 : ℚ)), ("Alice", 100)]) = 0 := by
  refine (c2_running_total_invariant ⟨"h", 1, []⟩
      [.payment ⟨"Bob", "Alice", jan2014 5, 100⟩] []).1
      [[("Bob", -100), ("Alice", 100)]] ?_ [("Bob", -100), ("Alice", 100)] (by simp)
  have hd : dues_for_payment ⟨"Bob", "Alice", jan2014 5, 100⟩ =
      .ok [("Bob", -100), ("Alice", 100)] := by
    have h2 : dictSet [("Bob", -(100 : ℚ))] "Alice" 100 =
        [("Bob", -100), ("Alice", 100)] := by
      simp [dictSet]
    have hs : sumValues [(("Bob" : String), -(100 : ℚ)), ("Alice", 100)] = 0 := by
      simp [sumValues]
    simp only [dues_for_payment, dictSet_nil, h2, hs, round2_zero]
    simp
  have hmerge : sum_dicts [] [("Bob", (-100 : ℚ)), ("Alice", 100)] =
      [("Bob", -100), ("Alice", 100)] := by
    simp [sum_dicts, dictAdd]
  have hs0 : sumValues [(("Bob" : String), (-100 : ℚ)), ("Alice", 100)] = 0 := by
    simp [sumValues]
  rw [run_ledger, run_ledger_from]
  rw [show compute_dues ⟨"h", 1, []⟩ (.payment ⟨"Bob", "Alice", jan2014 5, 100⟩) =
      .ok [("Bob", -100), ("Alice", 100)] from hd]
  dsimp only
  rw [hmerge, hs0, round2_zero, if_neg (by norm_num), run_ledger_from]

set_option maxHeartbeats 2000000 in
/-- Claim C1: the January 2014 scenario — Bob resident all of
`[Jan 1, Jan 31)`, Alice resident only `[Jan 1, Jan 16)`, `min_people = 1`,
a $100 bill for the whole range paid by Bob — allocates to exactly
`{Bob: -25.00, Alice: 25.00}`. -/
theorem c1_dues_for_bill_split_scenario :
    dues_for_bill
      ⟨"rent", "Bob", ⟨jan2014 1, jan2014 31⟩, jan2014 31, 100⟩
      ⟨"house", 1,
        [⟨"Bob", [⟨jan2014 1, jan2014 31⟩]⟩, ⟨"Alice", [⟨jan2014 1, jan2014 16⟩]⟩]⟩ =
      .ok [("Bob", -25), ("Alice", 25)] := by
  repeat first
    | norm_num [dues_for_bill, slice_bill, slice_bill_map, slice_date_range,
        split_date_range,
        house_move_dates, date_range_overlap_fraction, date_range_intersection,
        date_range_length, dr_lt, EMPTY_INTERSECTION, FUTURE, jan2014, dues_slices_fold,
        bill_slice_personal_costs, resident_names_during_date_range, resident_names_go,
        person_residency_fraction, residency_fraction_sum, addName, split_evenly,
        dictSet, dictAdd, sum_dicts, sumValues, round2_zero, DateRange.mk.injEq]
    | simp [dues_for_bill, slice_bill, slice_bill_map, slice_date_range,
        split_date_range,
        house_move_dates, date_range_overlap_fraction, date_range_intersection,
        date_range_length, dr_lt, EMPTY_INTERSECTION, FUTURE, jan2014, dues_slices_fold,
        bill_slice_personal_costs, resident_names_during_date_range, resident_names_go,
        person_residency_fraction, residency_fraction_sum, addName, split_evenly,
        dictSet, dictAdd, sum_dicts, sumValues, round2_zero, DateRange.mk.injEq]

end SplitBills
